import Mathlib

/-!
Shallow embedding of the lobby/turn state machine of the 420cards backend
(src/lobby.py) and proofs about the claims of its specification.

Conventions of the embedding:
* Python objects with identity (players) are represented by a `PlayerId`
  (a natural number); the mutable per-player attributes live in an
  association list `store : List (PlayerId × PlayerData)` inside the lobby
  state, mirroring the single mutable object per player.
* In-place mutation plus exceptions is modelled by the `Outcome` type:
  `.ok s` is normal return with final state `s`, `.err e s` is an exception
  `e` raised while the state had already been mutated to `s` (Python
  mutations performed before a `raise` are not rolled back).
* `random.shuffle` and `random.choice` are modelled by explicit function
  parameters (`shuffle`, `choose`); theorems that need it assume the
  shuffle returns a permutation of its input and the choice returns a
  member of its input.
* `list.pop()` on an empty list and `random.choice` on an empty sequence
  raise `IndexError`; these appear as the `IndexError` outcome.
-/

/-- Embedding of the `SetupCard` dataclass: id, text, case, starts_with_punchline. -/
structure SetupCard where
  id : Nat
  text : String
  case : String
  starts_with_punchline : Bool
deriving DecidableEq, Repr

/-- Embedding of the `PunchlineCard` dataclass: id and templated text. -/
structure PunchlineCard where
  id : Nat
  text : List (String × List String)
deriving DecidableEq, Repr

/-- Exceptions of src/lobby.py, plus the two built-in exceptions the code can
raise (`IndexError` from popping/choosing from an empty list,
`NotImplementedError` from the unimplemented no-lead branch). -/
inductive GameError where
  | CardNotInPlayerHandError
  | PlayerNotLeadError
  | PlayerNotOwnerError
  | NotAllCardsOpenedError
  | UnknownPlayerError
  | PlayerAlreadyReadyError
  | ScoreTooLowError
  | IndexError
  | NotImplementedError
deriving DecidableEq, Repr

/-- Result of running a state-mutating operation: either a normal return with
the final state, or an exception raised after the state had already been
mutated to `s` (Python does not roll back mutations on `raise`). -/
inductive Outcome (σ : Type) where
  | ok (s : σ)
  | err (e : GameError) (s : σ)
deriving DecidableEq, Repr

/-- State reached by the operation, whether it returned or raised. -/
def Outcome.state : Outcome σ → σ
  | .ok s => s
  | .err _ s => s

/-- Sequencing of mutating operations: an exception aborts the rest. -/
def Outcome.andThen : Outcome σ → (σ → Outcome σ) → Outcome σ
  | .ok s, f => f s
  | .err e s, _ => .err e s

/-- Embedding of class `Deck`: a draw pile `cards` and a discard pile `_dump`.
The `mapping` attribute (id lookup) plays no role in the claims and is
omitted. -/
structure Deck (α : Type) where
  cards : List α
  _dump : List α
deriving DecidableEq, Repr

/-- Embedding of `Deck.get_card`. Python: if the draw pile is empty, swap in
the discard pile (shuffled) and empty the discard pile, then `cards.pop()`
(pop from the END of the list); popping an empty list raises IndexError,
modelled as `none`. The shuffle is an explicit parameter. -/
def Deck.get_card (shuffle : List α → List α) (d : Deck α) :
    Option (α × Deck α) :=
  let piles : List α × List α :=
    if d.cards.isEmpty then (shuffle d._dump, []) else (d.cards, d._dump)
  match piles.1.getLast? with
  | none => none
  | some c => some (c, ⟨piles.1.dropLast, piles.2⟩)

/-- Embedding of `Deck.dump`: extend the discard pile with the given cards. -/
def Deck.dump (d : Deck α) (cs : List α) : Deck α :=
  { d with _dump := d._dump ++ cs }

/-- Multiset of all cards currently held by the deck (draw pile plus
discard pile). -/
def Deck.multiset (d : Deck α) : Multiset α :=
  (d.cards : Multiset α) + (d._dump : Multiset α)

/-- Drawing `n` cards in sequence (the list comprehension
`[punchlines.get_card() for _ in range(HAND_SIZE)]`); fails if any single
draw fails. The first drawn card is the head of the returned list. -/
def Deck.drawN (shuffle : List α → List α) (d : Deck α) :
    Nat → Option (List α × Deck α)
  | 0 => some ([], d)
  | n + 1 =>
    match d.get_card shuffle with
    | none => none
    | some (c, d') =>
      match Deck.drawN shuffle d' n with
      | none => none
      | some (cs, d'') => some (c :: cs, d'')

/-- Players are identified by a stable id (Python object identity). -/
abbrev PlayerId := Nat

/-- Mutable attributes of class `Player` that the game logic reads and
writes: hand, score, is_ready, is_connected. Profile/token/observer play no
role in the state claims. -/
structure PlayerData where
  hand : List PunchlineCard
  score : Int
  is_ready : Bool
  is_connected : Bool
deriving DecidableEq, Repr, Inhabited

/-- Lookup of a player's mutable data in the store (a missing player yields
the default record; well-formed lobbies list every player in the store). -/
def getPD (store : List (PlayerId × PlayerData)) (p : PlayerId) : PlayerData :=
  match store.find? (fun e => e.1 == p) with
  | some e => e.2
  | none => default

/-- In-place update of one player's mutable data in the store. -/
def setPD (store : List (PlayerId × PlayerData)) (p : PlayerId)
    (f : PlayerData → PlayerData) : List (PlayerId × PlayerData) :=
  store.map (fun e => if e.1 == p then (e.1, f e.2) else e)

/-- Embedding of class `CardOnTable`: a submitted card, its owner and the
reveal flag. -/
structure CardOnTable where
  card : PunchlineCard
  player : PlayerId
  is_open : Bool
deriving DecidableEq, Repr

/-- Embedding of `LobbySettings`. -/
structure LobbySettings where
  turn_duration : Option Int
  winning_score : Int
  finish_delay : Int
  start_turn_delay : Int
deriving DecidableEq, Repr

/-- The four phases of the game (classes Gathering, Turns, Judgement,
Finished), with the per-phase data each class instance holds. The timer
task held by `Turns` is not part of the state claims. -/
inductive Phase where
  | Gathering
  | Turns (setup : SetupCard)
  | Judgement (setup : SetupCard) (winner : Option PlayerId)
  | Finished (winner : PlayerId) (setup : SetupCard)
deriving DecidableEq, Repr

/-- Embedding of class `Lobby`: roster of non-lead players (in order), the
optional lead, the owner, the table, the grave, the two decks, settings,
round counter, endless flag, the per-player store, and the current phase. -/
structure Lobby where
  players : List PlayerId
  lead : Option PlayerId
  owner : PlayerId
  table : List CardOnTable
  grave : List PlayerId
  punchlines : Deck PunchlineCard
  setups : Deck SetupCard
  settings : LobbySettings
  turn_count : Nat
  is_game_endless : Bool
  store : List (PlayerId × PlayerData)
  phase : Phase
deriving DecidableEq, Repr

/-- Lobby.HAND_SIZE. -/
def HAND_SIZE : Nat := 10

/-- Embedding of `Lobby.all_players`: the lead (when present) followed by
the roster. -/
def Lobby.all_players (l : Lobby) : List PlayerId :=
  match l.lead with
  | none => l.players
  | some ld => ld :: l.players

/-- Embedding of `Lobby.card_on_table_of`: the first table entry belonging
to the player, if any. -/
def Lobby.card_on_table_of (l : Lobby) (p : PlayerId) : Option CardOnTable :=
  l.table.find? (fun c => c.player == p)

/-- Embedding of `Lobby.get_card_from_table`: the first table entry holding
the given card; the Python code raises NotImplementedError when absent. -/
def Lobby.get_card_from_table (l : Lobby) (card : PunchlineCard) :
    Option CardOnTable :=
  l.table.find? (fun c => c.card == card)

/-- Embedding of `Lobby.change_lead`: the old lead (if any) is appended to
the back of the roster and the new lead popped from the front;
`players.pop(0)` on an empty roster raises IndexError. -/
def Lobby.change_lead (l : Lobby) : Outcome Lobby :=
  let ps := match l.lead with
    | some ld => l.players ++ [ld]
    | none => l.players
  match ps with
  | [] => .err .IndexError { l with players := ps }
  | newLead :: rest => .ok { l with lead := some newLead, players := rest }

/-- Per-player body of the loop at the end of `Lobby.start_turn`: clear
is_ready, and when the hand size differs from HAND_SIZE draw ONE punchline
card and append it to the hand (the notifications carry no state). -/
def Lobby.start_turn_deal (shuffleP : List PunchlineCard → List PunchlineCard) :
    List PlayerId → Lobby → Outcome Lobby
  | [], l => .ok l
  | p :: ps, l =>
    let l1 := { l with store := setPD l.store p (fun d => { d with is_ready := false }) }
    if (getPD l1.store p).hand.length ≠ HAND_SIZE then
      match l1.punchlines.get_card shuffleP with
      | none => .err .IndexError l1
      | some (c, deck') =>
        Lobby.start_turn_deal shuffleP ps
          { l1 with punchlines := deck',
                    store := setPD l1.store p (fun d => { d with hand := d.hand ++ [c] }) }
    else Lobby.start_turn_deal shuffleP ps l1

/-- Embedding of `Lobby.start_turn`: rotate the lead, pop a new setup card,
bump the round counter, transition to Turns, then run the per-player loop
(ready reset plus single-card deal). The turn timer is not part of the
state. -/
def Lobby.start_turn (shuffleS : List SetupCard → List SetupCard)
    (shuffleP : List PunchlineCard → List PunchlineCard) (l : Lobby) :
    Outcome Lobby :=
  (l.change_lead).andThen fun l1 =>
    match l1.setups.get_card shuffleS with
    | none => .err .IndexError l1
    | some (newSetup, setups') =>
      let l2 := { l1 with setups := setups', turn_count := l1.turn_count + 1,
                          phase := .Turns newSetup }
      Lobby.start_turn_deal shuffleP l2.all_players l2

/-- Dealing loop of `Gathering.start_game`: each player in `all_players`
receives HAND_SIZE punchline cards appended to their (existing) hand. -/
def Gathering.deal (shuffleP : List PunchlineCard → List PunchlineCard) :
    List PlayerId → Lobby → Outcome Lobby
  | [], l => .ok l
  | p :: ps, l =>
    match l.punchlines.drawN shuffleP HAND_SIZE with
    | none => .err .IndexError l
    | some (cs, deck') =>
      Gathering.deal shuffleP ps
        { l with punchlines := deck',
                 store := setPD l.store p (fun d => { d with hand := d.hand ++ cs }) }

/-- Embedding of `Gathering.start_game`: owner check, install decks and
settings, deal HAND_SIZE punchline cards to every player, then
`Lobby.start_turn`. -/
def Gathering.start_game (shuffleS : List SetupCard → List SetupCard)
    (shuffleP : List PunchlineCard → List PunchlineCard) (l : Lobby)
    (p : PlayerId) (lobby_settings : LobbySettings) (setups : Deck SetupCard)
    (punchlines : Deck PunchlineCard) : Outcome Lobby :=
  if p ≠ l.owner then .err .PlayerNotOwnerError l
  else
    let l1 := { l with setups := setups, punchlines := punchlines,
                       settings := lobby_settings }
    (Gathering.deal shuffleP l1.all_players l1).andThen fun l2 =>
      Lobby.start_turn shuffleS shuffleP l2

/-- Embedding of `Turns.put_card_on_table`: fail if the card is not in the
player's hand; otherwise withdraw any previous table entry of the player
(returning its card to their hand), append the new entry, remove the card
from the hand and mark the player ready. -/
def Turns.put_card_on_table (l : Lobby) (p : PlayerId) (card : PunchlineCard) :
    Outcome Lobby :=
  if card ∉ (getPD l.store p).hand then .err .CardNotInPlayerHandError l
  else
    let l1 :=
      match l.card_on_table_of p with
      | some prev =>
        { l with table := l.table.erase prev,
                 store := setPD l.store p
                   (fun d => { d with hand := d.hand ++ [prev.card] }) }
      | none => l
    .ok { l1 with
          table := l1.table ++ [⟨card, p, false⟩],
          store := setPD l1.store p
            (fun d => { d with hand := d.hand.erase card, is_ready := true }) }

/-- Auto-submission loop of `Turns.end_turn`: every CONNECTED and not-ready
roster player has a card chosen from their hand (`random.choice`, modelled
by `choose`) submitted on their behalf; `random.choice` on an empty hand
raises IndexError. -/
def Turns.auto_submit (choose : List PunchlineCard → PunchlineCard) :
    List PlayerId → Lobby → Outcome Lobby
  | [], l => .ok l
  | p :: ps, l =>
    if (getPD l.store p).is_connected ∧ ¬(getPD l.store p).is_ready then
      if (getPD l.store p).hand = [] then .err .IndexError l
      else
        (Turns.put_card_on_table l p (choose (getPD l.store p).hand)).andThen
          fun l1 => Turns.auto_submit choose ps l1
    else Turns.auto_submit choose ps l

/-- Embedding of `Turns.end_turn`: auto-submit for connected-but-not-ready
roster players, shuffle the table, then transition to Judgement if a lead
exists (the no-lead branch raises NotImplementedError). -/
def Turns.end_turn (choose : List PunchlineCard → PunchlineCard)
    (shuffleT : List CardOnTable → List CardOnTable) (setup : SetupCard)
    (l : Lobby) : Outcome Lobby :=
  (Turns.auto_submit choose l.players l).andThen fun l1 =>
    let l2 := { l1 with table := shuffleT l1.table }
    match l2.lead with
    | some _ => .ok { l2 with phase := .Judgement setup none }
    | none => .err .NotImplementedError l2

/-- Embedding of `Turns.try_end_turn`: if some connected roster player is
not ready, return immediately; otherwise cancel the timer and end the
turn. -/
def Turns.try_end_turn (choose : List PunchlineCard → PunchlineCard)
    (shuffleT : List CardOnTable → List CardOnTable) (setup : SetupCard)
    (l : Lobby) : Outcome Lobby :=
  if l.players.any (fun p => (getPD l.store p).is_connected
      && !(getPD l.store p).is_ready) then .ok l
  else Turns.end_turn choose shuffleT setup l

/-- Embedding of `Turns.refresh_hand`: fail if the player is already ready;
draw a full fresh hand of HAND_SIZE cards, dump the old hand to the
punchline discard pile and install the new hand; THEN fail with
ScoreTooLow if the score is negative (the hand replacement is not rolled
back), else deduct one score point. -/
def Turns.refresh_hand (shuffleP : List PunchlineCard → List PunchlineCard)
    (l : Lobby) (p : PlayerId) : Outcome Lobby :=
  if (getPD l.store p).is_ready then .err .PlayerAlreadyReadyError l
  else
    match l.punchlines.drawN shuffleP HAND_SIZE with
    | none => .err .IndexError l
    | some (new_hand, deck') =>
      let l1 := { l with punchlines := deck'.dump (getPD l.store p).hand,
                         store := setPD l.store p
                           (fun d => { d with hand := new_hand }) }
      if (getPD l1.store p).score < 0 then .err .ScoreTooLowError l1
      else .ok { l1 with store := setPD l1.store p
                           (fun d => { d with score := d.score - 1 }) }

/-- The delayed transition scheduled at the end of `pick_turn_winner`:
either the finish-game task (with the winning player) or the next-turn
task. -/
inductive Sched where
  | finishGame (winner : PlayerId)
  | nextTurn
deriving DecidableEq, Repr

/-- Result of `pick_turn_winner`: the mutated lobby plus which delayed
transition was scheduled, or an exception with the state at the raise. -/
inductive PickResult where
  | ok (l : Lobby) (sched : Sched)
  | err (e : GameError) (l : Lobby)
deriving DecidableEq, Repr

/-- Embedding of `Judgement.pick_turn_winner`: lead-only; all table cards
must be open; the chosen card's entry owner gains one score point and is
recorded as round winner; all table cards are dumped to the punchline
discard pile and the table cleared; then, when not in endless mode, the
FIRST ROSTER player (the lead is not scanned) whose score EQUALS
winning_score causes the finish-game task to be scheduled, else the
next-turn task is scheduled. `setup` is the phase instance's setup card. -/
def Judgement.pick_turn_winner (setup : SetupCard) (l : Lobby) (p : PlayerId)
    (card : PunchlineCard) : PickResult :=
  if l.lead ≠ some p then .err .PlayerNotLeadError l
  else if l.table.any (fun c => !c.is_open) then .err .NotAllCardsOpenedError l
  else
    match l.get_card_from_table card with
    | none => .err .NotImplementedError l
    | some cot =>
      let l1 := { l with
        store := setPD l.store cot.player (fun d => { d with score := d.score + 1 }),
        phase := .Judgement setup (some cot.player) }
      let l2 := { l1 with
        punchlines := l1.punchlines.dump (l1.table.map (fun c => c.card)),
        table := [] }
      if l2.is_game_endless then .ok l2 .nextTurn
      else
        match l2.players.find?
            (fun q => (getPD l2.store q).score == l2.settings.winning_score) with
        | some w => .ok l2 (.finishGame w)
        | none => .ok l2 .nextTurn

/-- Embedding of `Judgement.finish_game` (the body of the scheduled
finish-game task): transition to Finished with the winner. -/
def Judgement.finish_game (setup : SetupCard) (winner : PlayerId) (l : Lobby) :
    Lobby :=
  { l with phase := .Finished winner setup }

/-- Embedding of `Judgement.start_turn` (the body of the scheduled
next-turn task): return the round's setup card to the setup discard pile,
then `Lobby.start_turn`. -/
def Judgement.start_turn (shuffleS : List SetupCard → List SetupCard)
    (shuffleP : List PunchlineCard → List PunchlineCard) (setup : SetupCard)
    (l : Lobby) : Outcome Lobby :=
  Lobby.start_turn shuffleS shuffleP { l with setups := l.setups.dump [setup] }

/-- Embedding of `Finished.start_turn`: identical to `Judgement.start_turn`
(dump the held setup card, then `Lobby.start_turn`). -/
def Finished.start_turn (shuffleS : List SetupCard → List SetupCard)
    (shuffleP : List PunchlineCard → List PunchlineCard) (setup : SetupCard)
    (l : Lobby) : Outcome Lobby :=
  Lobby.start_turn shuffleS shuffleP { l with setups := l.setups.dump [setup] }

/-- Embedding of `Finished.continue_game`: owner-only; set the endless
flag, then resume via `Finished.start_turn`. -/
def Finished.continue_game (shuffleS : List SetupCard → List SetupCard)
    (shuffleP : List PunchlineCard → List PunchlineCard) (setup : SetupCard)
    (l : Lobby) (p : PlayerId) : Outcome Lobby :=
  if p ≠ l.owner then .err .PlayerNotOwnerError l
  else Finished.start_turn shuffleS shuffleP setup
    { l with is_game_endless := true }

/-- Reset loop of `Finished.start_game`: clear every listed player's hand
and zero their score. -/
def Finished.clear_players : List PlayerId → List (PlayerId × PlayerData) →
    List (PlayerId × PlayerData)
  | [], s => s
  | p :: ps, s =>
    Finished.clear_players ps (setPD s p (fun d => { d with hand := [], score := 0 }))

/-- The state reset performed by `Finished.start_game` BEFORE any owner
check: clear the table, zero the round counter, clear every active
player's hand and score, and transition to Gathering. -/
def Finished.reset_for_restart (l : Lobby) : Lobby :=
  { l with table := [], turn_count := 0,
           store := Finished.clear_players l.all_players l.store,
           phase := .Gathering }

/-- Embedding of `Finished.start_game`: perform the reset, then re-enter
through `Gathering.start_game` (which is where the owner check lives). -/
def Finished.start_game (shuffleS : List SetupCard → List SetupCard)
    (shuffleP : List PunchlineCard → List PunchlineCard) (l : Lobby)
    (p : PlayerId) (lobby_settings : LobbySettings) (setups : Deck SetupCard)
    (punchlines : Deck PunchlineCard) : Outcome Lobby :=
  Gathering.start_game shuffleS shuffleP (Finished.reset_for_restart l) p
    lobby_settings setups punchlines

/-- While-loop of `Lobby.connect`: draw punchline cards while the hand is
shorter than HAND_SIZE. Fuel HAND_SIZE bounds the loop faithfully for any
player present in the store: each successful draw grows the hand by one
card, so at most HAND_SIZE iterations can run before the guard fails. -/
def Lobby.top_up_hand (shuffleP : List PunchlineCard → List PunchlineCard) :
    Nat → Lobby → PlayerId → Outcome Lobby
  | 0, l, _ => .ok l
  | n + 1, l, p =>
    if (getPD l.store p).hand.length < HAND_SIZE then
      match l.punchlines.get_card shuffleP with
      | none => .err .IndexError l
      | some (c, deck') =>
        Lobby.top_up_hand shuffleP n
          { l with punchlines := deck',
                   store := setPD l.store p
                     (fun d => { d with hand := d.hand ++ [c] }) } p
    else .ok l

/-- Embedding of `Lobby.connect`: an unknown player (neither active nor in
the grave) fails with UnknownPlayerError; a grave player is moved from the
grave back to the roster (`add_player` appends); then, unless the phase is
Gathering, the hand is topped up to HAND_SIZE before the connected
notifications fire. -/
def Lobby.connect (shuffleP : List PunchlineCard → List PunchlineCard)
    (l : Lobby) (p : PlayerId) : Outcome Lobby :=
  let admitted : Outcome Lobby :=
    if p ∈ l.all_players then .ok l
    else if p ∉ l.grave then .err .UnknownPlayerError l
    else .ok { l with grave := l.grave.erase p, players := l.players ++ [p] }
  admitted.andThen fun l1 =>
    if l1.phase ≠ Phase.Gathering then Lobby.top_up_hand shuffleP HAND_SIZE l1 p
    else .ok l1

/-- The exception carried by an outcome, if any. -/
def Outcome.errorOf : Outcome σ → Option GameError
  | .ok _ => none
  | .err e _ => some e

/-- The scheduled transition of a `pick_turn_winner` result, if it
returned normally. -/
def PickResult.schedOf : PickResult → Option Sched
  | .ok _ sched => some sched
  | .err _ _ => none

/-- The lobby state of a `pick_turn_winner` result (final state on normal
return, state at the raise on exception). -/
def PickResult.stateOf : PickResult → Lobby
  | .ok l _ => l
  | .err _ l => l

/-- Number of table entries belonging to a player. -/
def entriesOf (table : List CardOnTable) (p : PlayerId) : Nat :=
  (table.filter (fun c => c.player == p)).length

/-- One step of a client-driven deck history: a draw, or a discard of a
list of cards the client holds. -/
inductive DeckOp (α : Type) where
  | draw
  | dumpOp (cs : List α)

/-- Replay of a sequence of draws and discards against a deck, tracking the
multiset `outst` of cards drawn but not yet discarded (the cards living in
hands and on the table). A discard is replayed only when the discarded
cards are among the outstanding ones, which is how the game uses `dump`. -/
def Deck.runOps [DecidableEq α] (shuffle : List α → List α) :
    Deck α → Multiset α → List (DeckOp α) → Option (Deck α × Multiset α)
  | d, outst, [] => some (d, outst)
  | d, outst, .draw :: ops =>
    match d.get_card shuffle with
    | none => none
    | some (c, d') => Deck.runOps shuffle d' (c ::ₘ outst) ops
  | d, outst, .dumpOp cs :: ops =>
    if (cs : Multiset α) ≤ outst then Deck.runOps shuffle (d.dump cs) (outst - cs) ops
    else none

/-- Punchline card with a given id and empty template, for concrete runs. -/
def samplePunchline (i : Nat) : PunchlineCard := ⟨i, []⟩

/-- Setup card with a given id, for concrete runs. -/
def sampleSetup (i : Nat) : SetupCard := ⟨i, "", "", false⟩

/-- Settings with winning_score 1 and no turn timer, for concrete runs. -/
def sampleSettings : LobbySettings := ⟨none, 1, 5, 5⟩

/-- A small mid-game lobby used by the concrete runs: lead 1 (owner,
connected), roster [2] where player 2 is disconnected, not ready, holds one
card and has score -1; twelve punchline cards in the draw pile. -/
def baseLobby : Lobby where
  players := [2]
  lead := some 1
  owner := 1
  table := []
  grave := []
  punchlines := ⟨(List.range 12).map (fun i => samplePunchline (100 + i)), []⟩
  setups := ⟨[sampleSetup 1, sampleSetup 2], []⟩
  settings := sampleSettings
  turn_count := 1
  is_game_endless := false
  store := [(1, ⟨[samplePunchline 1], 0, false, true⟩),
            (2, ⟨[samplePunchline 2], -1, false, false⟩)]
  phase := .Turns (sampleSetup 9)

/-- The same lobby in the Finished phase with one card left on the table,
for concrete restart runs. -/
def finishedLobby : Lobby :=
  { baseLobby with phase := .Finished 1 (sampleSetup 9),
                   table := [⟨samplePunchline 50, 1, true⟩] }

/-- The same lobby with endless mode on, for concrete restart runs. -/
def endlessLobby : Lobby := { finishedLobby with is_game_endless := true }

/-- A Turns-phase lobby where player 1 holds a full hand and player 2 holds
eight cards, both ready, for concrete `start_turn` runs. -/
def shortHandLobby : Lobby :=
  { baseLobby with
      store := [(1, ⟨(List.range 10).map samplePunchline, 0, true, true⟩),
                (2, ⟨(List.range 8).map (fun i => samplePunchline (20 + i)),
                     0, true, true⟩)] }

/-- A Judgement-phase lobby whose only (open) table entry belongs to the
LEAD (player 1); scores 0, winning_score 1, for concrete
`pick_turn_winner` runs. -/
def leadEntryLobby : Lobby :=
  { baseLobby with
      table := [⟨samplePunchline 50, 1, true⟩],
      phase := .Judgement (sampleSetup 9) none,
      store := [(1, ⟨[], 0, false, true⟩), (2, ⟨[], 0, false, true⟩)] }

/-- A Judgement-phase lobby whose only (open) table entry belongs to
ROSTER player 2; scores 0, winning_score 1, for concrete
`pick_turn_winner` runs. -/
def rosterEntryLobby : Lobby :=
  { leadEntryLobby with table := [⟨samplePunchline 50, 2, true⟩] }

/-- The base lobby with player 3 in the grave holding a one-card hand, for
concrete `connect` runs. -/
def graveLobby : Lobby :=
  { baseLobby with
      grave := [3],
      store := baseLobby.store ++ [(3, ⟨[samplePunchline 7], 0, false, false⟩)] }

/-- Unfolding of `getPD` on a cons cell. -/
theorem getPD_cons (x : PlayerId × PlayerData) (xs : List (PlayerId × PlayerData))
    (q : PlayerId) : getPD (x :: xs) q = if x.1 == q then x.2 else getPD xs q := by
  simp only [getPD, List.find?]
  cases h : (x.1 == q) <;> simp [h]

/-- Unfolding of `setPD` on a cons cell. -/
theorem setPD_cons (x : PlayerId × PlayerData) (xs : List (PlayerId × PlayerData))
    (p : PlayerId) (f : PlayerData → PlayerData) :
    setPD (x :: xs) p f = (if x.1 == p then (x.1, f x.2) else x) :: setPD xs p f := rfl

/-- Updating one player leaves every other player's data unchanged. -/
theorem getPD_setPD_ne (store : List (PlayerId × PlayerData)) (p q : PlayerId)
    (f : PlayerData → PlayerData) (h : q ≠ p) :
    getPD (setPD store p f) q = getPD store q := by
  induction store with
  | nil => rfl
  | cons x xs ih =>
    rw [setPD_cons]
    by_cases hp : x.1 = p
    · have hq : x.1 ≠ q := fun hx => h (hx ▸ hp ▸ rfl)
      simp only [hp, beq_self_eq_true, if_true, getPD_cons]
      simp [hq, ih, Ne.symm h]
    · simp only [beq_eq_false_iff_ne, ne_eq, hp, not_false_eq_true, if_neg,
        getPD_cons, beq_iff_eq]
      by_cases hq : x.1 = q
      · simp [hq]
      · simp [hq, ih]

/-- Updating a player present in the store applies the update to their
data. -/
theorem getPD_setPD_self (store : List (PlayerId × PlayerData)) (p : PlayerId)
    (f : PlayerData → PlayerData) (h : p ∈ store.map Prod.fst) :
    getPD (setPD store p f) p = f (getPD store p) := by
  induction store with
  | nil => simp at h
  | cons x xs ih =>
    rw [setPD_cons]
    by_cases hp : x.1 = p
    · simp [hp, getPD_cons]
    · rw [List.map_cons, List.mem_cons] at h
      rcases h with h | h
      · exact absurd h.symm hp
      · simp only [beq_eq_false_iff_ne, ne_eq, hp, not_false_eq_true, if_neg,
          getPD_cons, beq_iff_eq, hp, ite_false]
        simp [hp, ih h]

/-- Updating a player does not change the set of players in the store. -/
theorem setPD_keys (store : List (PlayerId × PlayerData)) (p : PlayerId)
    (f : PlayerData → PlayerData) :
    (setPD store p f).map Prod.fst = store.map Prod.fst := by
  induction store with
  | nil => rfl
  | cons x xs ih =>
    rw [setPD_cons]
    by_cases hp : x.1 = p <;> simp [hp, ih]

/-- A permutation-returning shuffle maps empty lists exactly to empty
lists. -/
theorem shuffle_eq_nil_iff {α : Type} (shuffle : List α → List α)
    (hs : ∀ xs : List α, List.Perm (shuffle xs) xs) (xs : List α) :
    shuffle xs = [] ↔ xs = [] := by
  rw [List.length_eq_zero.symm, List.length_eq_zero.symm, (hs xs).length_eq]

/-- A successful draw removes exactly the drawn card from the deck's
multiset. -/
theorem Deck.get_card_multiset {α : Type} (shuffle : List α → List α)
    (hs : ∀ xs : List α, List.Perm (shuffle xs) xs) (d : Deck α) (c : α)
    (d' : Deck α) (h : d.get_card shuffle = some (c, d')) :
    d'.multiset + {c} = d.multiset := by
  unfold Deck.get_card at h
  by_cases hc : d.cards.isEmpty
  · simp only [hc, if_true] at h
    cases hl : (shuffle d._dump).getLast? with
    | none => rw [hl] at h; exact absurd h (by simp)
    | some a =>
      rw [hl] at h
      simp only [Option.some.injEq, Prod.mk.injEq] at h
      obtain ⟨rfl, rfl⟩ := h
      obtain ⟨l', hl'⟩ := List.getLast?_eq_some_iff.mp hl
      have hcards : d.cards = [] := List.isEmpty_iff.mp hc
      simp only [Deck.multiset, hl', List.dropLast_concat, hcards,
        List.nil_append]
      rw [Multiset.coe_nil, add_zero, zero_add, ← Multiset.coe_singleton,
        Multiset.coe_add]
      exact Multiset.coe_eq_coe.mpr ((hl' ▸ hs d._dump))
  · simp only [hc, Bool.false_eq_true, if_false] at h
    cases hl : d.cards.getLast? with
    | none => rw [hl] at h; exact absurd h (by simp)
    | some a =>
      rw [hl] at h
      simp only [Option.some.injEq, Prod.mk.injEq] at h
      obtain ⟨rfl, rfl⟩ := h
      obtain ⟨l', hl'⟩ := List.getLast?_eq_some_iff.mp hl
      simp only [Deck.multiset, hl', List.dropLast_concat]
      rw [add_right_comm, ← Multiset.coe_singleton, Multiset.coe_add]

/-- A discard adds exactly the given cards to the deck's multiset. -/
theorem Deck.dump_multiset {α : Type} (d : Deck α) (cs : List α) :
    (d.dump cs).multiset = d.multiset + ↑cs := by
  simp only [Deck.dump, Deck.multiset]
  rw [← Multiset.coe_add, add_assoc]

/-- A successful `drawN` draws exactly `n` cards. -/
theorem Deck.drawN_length {α : Type} (shuffle : List α → List α) (d : Deck α)
    (n : Nat) (cs : List α) (d' : Deck α)
    (h : d.drawN shuffle n = some (cs, d')) : cs.length = n := by
  induction n generalizing d cs d' with
  | zero =>
    unfold Deck.drawN at h
    simp only [Option.some.injEq, Prod.mk.injEq] at h
    simp [← h.1]
  | succ k ih =>
    unfold Deck.drawN at h
    split at h
    · exact absurd h (by simp)
    · split at h
      · exact absurd h (by simp)
      · simp only [Option.some.injEq, Prod.mk.injEq] at h
        obtain ⟨h3, -⟩ := h
        rename_i heq2
        rw [← h3, List.length_cons, ih _ _ _ heq2]

/-- Replaying any sequence of draws and discards preserves the multiset of
deck cards plus outstanding cards. -/
theorem Deck.runOps_multiset {α : Type} [DecidableEq α]
    (shuffle : List α → List α)
    (hs : ∀ xs : List α, List.Perm (shuffle xs) xs) (ops : List (DeckOp α)) :
    ∀ (d : Deck α) (outst : Multiset α) (d' : Deck α) (outst' : Multiset α),
      Deck.runOps shuffle d outst ops = some (d', outst') →
      d'.multiset + outst' = d.multiset + outst := by
  induction ops with
  | nil =>
    intro d outst d' outst' h
    unfold Deck.runOps at h
    simp only [Option.some.injEq, Prod.mk.injEq] at h
    rw [h.1, h.2]
  | cons op ops ih =>
    intro d outst d' outst' h
    cases op with
    | draw =>
      unfold Deck.runOps at h
      cases h1 : d.get_card shuffle with
      | none => rw [h1] at h; exact absurd h (by simp)
      | some cd =>
        rw [h1] at h
        have h2 := ih cd.2 (cd.1 ::ₘ outst) d' outst' h
        rw [h2, ← Multiset.singleton_add, ← add_assoc,
          Deck.get_card_multiset shuffle hs d cd.1 cd.2 (by rw [h1])]
    | dumpOp cs =>
      unfold Deck.runOps at h
      by_cases hle : (cs : Multiset α) ≤ outst
      · rw [if_pos hle] at h
        have h2 := ih (d.dump cs) (outst - cs) d' outst' h
        rw [h2, Deck.dump_multiset, add_assoc]
        congr 1
        rw [add_comm]
        exact tsub_add_cancel_of_le hle
      · rw [if_neg hle] at h
        exact absurd h (by simp)

/-- C6 counterexample: for the deck created with the single card
`samplePunchline 1`, one draw leaves draw pile and discard pile both empty,
so the multiset union of the two piles is NOT invariant under draw
operations — it no longer equals the full original set of cards. -/
theorem C6_counterexample :
    Deck.get_card id (⟨[samplePunchline 1], []⟩ : Deck PunchlineCard)
      = some (samplePunchline 1, ⟨[], []⟩) ∧
    Deck.multiset (⟨[], []⟩ : Deck PunchlineCard)
      ≠ Deck.multiset (⟨[samplePunchline 1], []⟩ : Deck PunchlineCard) := by
  refine ⟨rfl, ?_⟩
  simp [Deck.multiset]

/-- C6 (amended): no card is ever lost or duplicated, but a drawn card
leaves the two piles until it is discarded back. Precisely: `dump` adds
exactly the given cards to the deck's pile multiset; a successful
`get_card` removes exactly the drawn card; and over every sequence of
draw/discard operations whose discards return previously drawn cards, the
pile multiset plus the outstanding drawn cards is invariant, equal to the
full original set. -/
theorem C6_deck_conservation {α : Type} [DecidableEq α]
    (shuffle : List α → List α)
    (hs : ∀ xs : List α, List.Perm (shuffle xs) xs) (d : Deck α) :
    (∀ cs : List α, (d.dump cs).multiset = d.multiset + ↑cs) ∧
    (∀ (c : α) (d' : Deck α), d.get_card shuffle = some (c, d') →
       d'.multiset + {c} = d.multiset) ∧
    (∀ (ops : List (DeckOp α)) (d' : Deck α) (outst' : Multiset α),
       Deck.runOps shuffle d 0 ops = some (d', outst') →
       d'.multiset + outst' = d.multiset) := by
  refine ⟨fun cs => Deck.dump_multiset d cs,
          fun c d' h => Deck.get_card_multiset shuffle hs d c d' h,
          fun ops d' outst' h => ?_⟩
  have := Deck.runOps_multiset shuffle hs ops d 0 d' outst' h
  rwa [add_zero] at this

/-- C6 witness: a concrete two-card deck, one draw replayed; the pile
multiset plus the outstanding card equals the original set. -/
theorem C6_witness :
    Deck.multiset (⟨[samplePunchline 1], []⟩ : Deck PunchlineCard)
        + {samplePunchline 2}
      = Deck.multiset
          (⟨[samplePunchline 1, samplePunchline 2], []⟩ : Deck PunchlineCard) :=
  (C6_deck_conservation id (fun xs => List.Perm.refl xs)
      ⟨[samplePunchline 1, samplePunchline 2], []⟩).2.2
    [DeckOp.draw] ⟨[samplePunchline 1], []⟩ {samplePunchline 2} rfl

/-- C7: `get_card` returns a card exactly when the draw pile and the
discard pile are not both empty; in particular a draw from an empty draw
pile with a non-empty discard pile succeeds (after recycling), and a draw
fails only when both piles are empty. -/
theorem C7_get_card_total {α : Type} (shuffle : List α → List α)
    (hs : ∀ xs : List α, List.Perm (shuffle xs) xs) (d : Deck α) :
    (d.get_card shuffle).isSome = true ↔ (d.cards ≠ [] ∨ d._dump ≠ []) := by
  unfold Deck.get_card
  by_cases hc : d.cards.isEmpty
  · have hcards : d.cards = [] := List.isEmpty_iff.mp hc
    simp only [hc, if_true, hcards, ne_eq, not_true_eq_false, false_or]
    cases hl : (shuffle d._dump).getLast? with
    | none =>
      have : shuffle d._dump = [] := List.getLast?_eq_none_iff.mp hl
      have hd : d._dump = [] := (shuffle_eq_nil_iff shuffle hs d._dump).mp this
      rw [hd] at hl
      simp [hl, hd]
    | some a =>
      have : shuffle d._dump ≠ [] := by
        intro hx
        rw [hx] at hl
        exact absurd hl (by simp)
      have hd : d._dump ≠ [] :=
        fun hx => this ((shuffle_eq_nil_iff shuffle hs d._dump).mpr hx)
      simp [hl, hd]
  · have hcards : d.cards ≠ [] := by
      intro hx
      exact hc (by simp [hx])
    simp only [hc, Bool.false_eq_true, if_false, ne_eq, hcards,
      not_false_eq_true, true_or, iff_true]
    cases hl : d.cards.getLast? with
    | none => exact absurd (List.getLast?_eq_none_iff.mp hl) hcards
    | some a => simp

/-- C7 witness: drawing from an empty draw pile with a one-card discard
pile succeeds. -/
theorem C7_witness :
    ((⟨[], [samplePunchline 1]⟩ : Deck PunchlineCard).get_card id).isSome
      = true :=
  (C7_get_card_total id (fun xs => List.Perm.refl xs) _).mpr
    (Or.inr (by decide))

/-- The reset loop preserves the set of players in the store. -/
theorem clear_players_keys (ps : List PlayerId)
    (s : List (PlayerId × PlayerData)) :
    (Finished.clear_players ps s).map Prod.fst = s.map Prod.fst := by
  induction ps generalizing s with
  | nil => rfl
  | cons p rest ih =>
    unfold Finished.clear_players
    rw [ih, setPD_keys]


/-- The reset loop leaves unlisted players' data unchanged. -/
theorem clear_players_frame (q : PlayerId) (ps : List PlayerId)
    (s : List (PlayerId × PlayerData)) (h : q ∉ ps) :
    getPD (Finished.clear_players ps s) q = getPD s q := by
  induction ps generalizing s with
  | nil => rfl
  | cons p rest ih =>
    unfold Finished.clear_players
    rw [List.mem_cons, not_or] at h
    rw [ih _ h.2, getPD_setPD_ne _ _ _ _ h.1]

/-- The reset loop clears the hand and zeroes the score of every listed
player present in the store. -/
theorem clear_players_spec (q : PlayerId) (ps : List PlayerId)
    (s : List (PlayerId × PlayerData)) (hq : q ∈ ps)
    (hk : q ∈ s.map Prod.fst) :
    (getPD (Finished.clear_players ps s) q).hand = [] ∧
    (getPD (Finished.clear_players ps s) q).score = 0 := by
  induction ps generalizing s with
  | nil => simp at hq
  | cons p rest ih =>
    unfold Finished.clear_players
    by_cases hmem : q ∈ rest
    · exact ih _ hmem (by rw [setPD_keys]; exact hk)
    · have hqp : q = p := by
        rcases List.mem_cons.mp hq with h | h
        · exact h
        · exact absurd h hmem
      rw [clear_players_frame q rest _ hmem, hqp, getPD_setPD_self _ _ _
        (hqp ▸ hk)]
      exact ⟨rfl, rfl⟩

/-- C1 (amended): `start_game` called in the Finished phase by a non-owner
does fail with PlayerNotOwnerError (the check happens after re-entering
Gathering), but the lobby is NOT left unchanged: by the time the error is
raised the table has been cleared, the round counter zeroed, every active
participant's hand and score reset, and the phase moved to Gathering; none
of this is rolled back. -/
theorem C1_start_game_not_owner (shuffleS : List SetupCard → List SetupCard)
    (shuffleP : List PunchlineCard → List PunchlineCard) (l : Lobby)
    (p : PlayerId) (st : LobbySettings) (sd : Deck SetupCard)
    (pd : Deck PunchlineCard) (hp : p ≠ l.owner) :
    Finished.start_game shuffleS shuffleP l p st sd pd
      = .err .PlayerNotOwnerError (Finished.reset_for_restart l) ∧
    (Finished.reset_for_restart l).table = [] ∧
    (Finished.reset_for_restart l).turn_count = 0 ∧
    (Finished.reset_for_restart l).phase = Phase.Gathering ∧
    (∀ q ∈ l.all_players, q ∈ l.store.map Prod.fst →
       (getPD (Finished.reset_for_restart l).store q).hand = [] ∧
       (getPD (Finished.reset_for_restart l).store q).score = 0) := by
  refine ⟨?_, rfl, rfl, rfl, ?_⟩
  · unfold Finished.start_game Gathering.start_game
    rw [if_pos]
    exact hp
  · intro q hq hk
    exact clear_players_spec q l.all_players l.store hq hk

/-- C1 witness: a non-owner restart call on a concrete Finished lobby. -/
theorem C1_witness :
    (Finished.start_game id id finishedLobby 2 sampleSettings
        ⟨[sampleSetup 5], []⟩ ⟨[], []⟩).state.phase = Phase.Gathering := by
  have h := C1_start_game_not_owner id id finishedLobby 2 sampleSettings
    ⟨[sampleSetup 5], []⟩ ⟨[], []⟩ (by decide)
  rw [h.1]
  exact h.2.2.2.1

/-- C1 counterexample: on a concrete Finished lobby with a non-empty table
and round counter 1, a non-owner `start_game` raises PlayerNotOwnerError
but the lobby at the raise differs from the original (table cleared, round
counter zeroed, phase changed), refuting "the lobby is left unchanged". -/
theorem C1_counterexample :
    Finished.start_game id id finishedLobby 2 sampleSettings
        ⟨[sampleSetup 5], []⟩ ⟨[], []⟩
      = .err .PlayerNotOwnerError (Finished.reset_for_restart finishedLobby) ∧
    Finished.reset_for_restart finishedLobby ≠ finishedLobby := by
  exact ⟨rfl, by decide⟩

/-- Projection of `Outcome.state` on a normal return. -/
@[simp] theorem Outcome.state_ok (s : σ) : (Outcome.ok s).state = s := rfl

/-- Projection of `Outcome.state` on an exception. -/
@[simp] theorem Outcome.state_err (e : GameError) (s : σ) :
    (Outcome.err e s).state = s := rfl

/-- Projection of `Outcome.errorOf` on a normal return. -/
@[simp] theorem Outcome.errorOf_ok (s : σ) : (Outcome.ok s).errorOf = none := rfl

/-- Projection of `Outcome.errorOf` on an exception. -/
@[simp] theorem Outcome.errorOf_err (e : GameError) (s : σ) :
    (Outcome.err e s).errorOf = some e := rfl

/-- Sequencing after a normal return runs the continuation. -/
@[simp] theorem Outcome.andThen_ok (s : σ) (f : σ → Outcome σ) :
    (Outcome.ok s).andThen f = f s := rfl

/-- Sequencing after an exception propagates the exception. -/
@[simp] theorem Outcome.andThen_err (e : GameError) (s : σ) (f : σ → Outcome σ) :
    (Outcome.err e s).andThen f = .err e s := rfl

/-- C2 (amended): during Turns, `refresh_hand` of a not-ready participant
fails with ScoreTooLowError exactly when their score is negative, but the
failure is NOT effect-free: the hand has already been replaced by
HAND_SIZE freshly drawn cards and the old hand dumped to the punchline
discard pile before the score check runs; only the score itself is left
unchanged on failure. With a non-negative score the same replacement
happens and exactly one score point is deducted. -/
theorem C2_refresh_hand (shuffleP : List PunchlineCard → List PunchlineCard)
    (l : Lobby) (p : PlayerId) {new_hand : List PunchlineCard}
    {deck' : Deck PunchlineCard} (hk : p ∈ l.store.map Prod.fst)
    (hready : (getPD l.store p).is_ready = false)
    (hdraw : l.punchlines.drawN shuffleP HAND_SIZE = some (new_hand, deck')) :
    (Turns.refresh_hand shuffleP l p).errorOf
        = (if (getPD l.store p).score < 0 then some .ScoreTooLowError
           else none) ∧
    (getPD (Turns.refresh_hand shuffleP l p).state.store p).hand = new_hand ∧
    new_hand.length = HAND_SIZE ∧
    (Turns.refresh_hand shuffleP l p).state.punchlines
        = deck'.dump (getPD l.store p).hand ∧
    (getPD (Turns.refresh_hand shuffleP l p).state.store p).score
        = (if (getPD l.store p).score < 0 then (getPD l.store p).score
           else (getPD l.store p).score - 1) := by
  have hself : getPD (setPD l.store p (fun d => { d with hand := new_hand })) p
      = { getPD l.store p with hand := new_hand } := getPD_setPD_self _ _ _ hk
  have hk2 : p ∈ (setPD l.store p
      (fun d => { d with hand := new_hand })).map Prod.fst := by
    rw [setPD_keys]; exact hk
  have hself2 : getPD (setPD (setPD l.store p
        (fun d => { d with hand := new_hand })) p
        (fun d => { d with score := d.score - 1 })) p
      = { getPD l.store p with hand := new_hand, score := (getPD l.store p).score - 1 } := by
    rw [getPD_setPD_self _ _ _ hk2, hself]
  unfold Turns.refresh_hand
  simp only [hready, Bool.false_eq_true, if_false, hdraw]
  by_cases hs : (getPD l.store p).score < 0
  · simp only [hself, hs, if_pos, if_true]
    exact ⟨rfl, by simp only [Outcome.state_err, hself],
      Deck.drawN_length shuffleP l.punchlines HAND_SIZE new_hand deck' hdraw,
      rfl, by simp only [Outcome.state_err, hself]⟩
  · simp only [hself, hs, if_false]
    exact ⟨rfl, by simp only [Outcome.state_ok, hself2],
      Deck.drawN_length shuffleP l.punchlines HAND_SIZE new_hand deck' hdraw,
      rfl, by simp only [Outcome.state_ok, hself2]⟩

/-- C2 counterexample: in a concrete Turns lobby where player 2 has score
-1 and is not ready, `refresh_hand` raises ScoreTooLowError yet the hand
and the punchline deck are both changed at the raise, refuting "has no
effect". -/
theorem C2_counterexample :
    (Turns.refresh_hand id baseLobby 2).errorOf
        = some GameError.ScoreTooLowError ∧
    (getPD (Turns.refresh_hand id baseLobby 2).state.store 2).hand
        ≠ (getPD baseLobby.store 2).hand ∧
    (Turns.refresh_hand id baseLobby 2).state.punchlines
        ≠ baseLobby.punchlines := by
  exact ⟨rfl, by decide, by decide⟩

/-- C2 witness: the amended theorem applied to the concrete lobby; the
score is left at -1 while the error is raised. -/
theorem C2_witness :
    (Turns.refresh_hand id baseLobby 2).errorOf
        = some GameError.ScoreTooLowError ∧
    (getPD (Turns.refresh_hand id baseLobby 2).state.store 2).score = -1 := by
  have h := C2_refresh_hand id baseLobby 2 (by decide) (by decide) rfl
  refine ⟨?_, ?_⟩
  · rw [h.1]; rfl
  · rw [h.2.2.2.2]; rfl

/-- Chaining lemma: if the first stage ends (normally or not) with a given
endless flag and every continuation preserves the flag, the chain ends
with that flag. -/
theorem andThen_endless (o : Outcome Lobby) (f : Lobby → Outcome Lobby)
    (b : Bool) (ho : o.state.is_game_endless = b)
    (hf : ∀ s : Lobby, ((f s).state).is_game_endless = s.is_game_endless) :
    ((o.andThen f).state).is_game_endless = b := by
  cases o with
  | ok s => rw [Outcome.andThen_ok, hf]; exact ho
  | err e s => rw [Outcome.andThen_err]; exact ho

/-- The per-player loop of `start_turn` never touches the endless flag. -/
theorem start_turn_deal_endless
    (shuffleP : List PunchlineCard → List PunchlineCard) (ps : List PlayerId)
    (l : Lobby) :
    ((Lobby.start_turn_deal shuffleP ps l).state).is_game_endless
      = l.is_game_endless := by
  induction ps generalizing l with
  | nil => rfl
  | cons p rest ih =>
    unfold Lobby.start_turn_deal
    dsimp only
    split
    · split
      · rfl
      · exact ih _
    · exact ih _

/-- The dealing loop of `Gathering.start_game` never touches the endless
flag. -/
theorem gathering_deal_endless
    (shuffleP : List PunchlineCard → List PunchlineCard) (ps : List PlayerId)
    (l : Lobby) :
    ((Gathering.deal shuffleP ps l).state).is_game_endless
      = l.is_game_endless := by
  induction ps generalizing l with
  | nil => rfl
  | cons p rest ih =>
    unfold Gathering.deal
    split
    · rfl
    · exact ih _

/-- Lead rotation never touches the endless flag. -/
theorem change_lead_endless (l : Lobby) :
    (l.change_lead.state).is_game_endless = l.is_game_endless := by
  unfold Lobby.change_lead
  dsimp only
  split <;> rfl

/-- `start_turn` never touches the endless flag. -/
theorem start_turn_endless (shuffleS : List SetupCard → List SetupCard)
    (shuffleP : List PunchlineCard → List PunchlineCard) (l : Lobby) :
    ((Lobby.start_turn shuffleS shuffleP l).state).is_game_endless
      = l.is_game_endless := by
  unfold Lobby.start_turn
  apply andThen_endless _ _ _ (change_lead_endless l)
  intro s
  split
  · rfl
  · exact start_turn_deal_endless shuffleP _ _

/-- `Gathering.start_game` never touches the endless flag. -/
theorem gathering_start_game_endless
    (shuffleS : List SetupCard → List SetupCard)
    (shuffleP : List PunchlineCard → List PunchlineCard) (l : Lobby)
    (p : PlayerId) (st : LobbySettings) (sd : Deck SetupCard)
    (pd : Deck PunchlineCard) :
    ((Gathering.start_game shuffleS shuffleP l p st sd pd).state).is_game_endless
      = l.is_game_endless := by
  unfold Gathering.start_game
  split
  · rfl
  · exact andThen_endless _ _ _ (gathering_deal_endless shuffleP _ _)
      (fun s => start_turn_endless shuffleS shuffleP s)

/-- C10: once `continue_game` has set the endless flag, a full restart via
`start_game` from the Finished phase leaves the flag set (the restart
resets table, round counter, hands and scores but never clears endless
mode), and while the flag is set `pick_turn_winner` never schedules the
finish-game transition — the winning-score check stays suppressed. -/
theorem C10_endless_preserved (shuffleS : List SetupCard → List SetupCard)
    (shuffleP : List PunchlineCard → List PunchlineCard) (l : Lobby)
    (p : PlayerId) (st : LobbySettings) (sd : Deck SetupCard)
    (pd : Deck PunchlineCard) (hend : l.is_game_endless = true) :
    ((Finished.start_game shuffleS shuffleP l p st sd pd).state).is_game_endless
        = true ∧
    (∀ (setup : SetupCard) (l₂ : Lobby) (p₂ : PlayerId) (c₂ : PunchlineCard)
       (l₂' : Lobby) (sched : Sched), l₂.is_game_endless = true →
       Judgement.pick_turn_winner setup l₂ p₂ c₂ = PickResult.ok l₂' sched →
       sched = Sched.nextTurn) := by
  constructor
  · rw [Finished.start_game, gathering_start_game_endless]
    exact hend
  · intro setup l₂ p₂ c₂ l₂' sched hend₂ hok
    unfold Judgement.pick_turn_winner at hok
    split at hok
    · exact absurd hok (by simp)
    · split at hok
      · exact absurd hok (by simp)
      · split at hok
        · exact absurd hok (by simp)
        · rw [if_pos hend₂] at hok
          cases hok
          rfl

/-- C10 witness: a concrete endless Finished lobby restarted via
`start_game`; the endless flag is still set afterwards. -/
theorem C10_witness :
    ((Finished.start_game id id endlessLobby 2 sampleSettings
        ⟨[sampleSetup 5], []⟩ ⟨[], []⟩).state).is_game_endless = true :=
  (C10_endless_preserved id id endlessLobby 2 sampleSettings
    ⟨[sampleSetup 5], []⟩ ⟨[], []⟩ rfl).1

/-- C5 counterexample: in a concrete non-endless Judgement lobby with
winning_score 1, the lead (player 1, connected) picks their own table
entry and reaches the winning score, yet `pick_turn_winner` schedules the
next turn, not the finish transition: the winning-score scan only looks at
the roster and skips the lead. -/
theorem C5_counterexample :
    (Judgement.pick_turn_winner (sampleSetup 9) leadEntryLobby 1
        (samplePunchline 50)).schedOf = some Sched.nextTurn ∧
    (getPD (Judgement.pick_turn_winner (sampleSetup 9) leadEntryLobby 1
        (samplePunchline 50)).stateOf.store 1).score
      = leadEntryLobby.settings.winning_score ∧
    (getPD (Judgement.pick_turn_winner (sampleSetup 9) leadEntryLobby 1
        (samplePunchline 50)).stateOf.store 1).is_connected = true ∧
    leadEntryLobby.is_game_endless = false := by
  exact ⟨rfl, by decide, by decide, rfl⟩

/-- C5 (amended): in non-endless mode the winning-score check of
`pick_turn_winner` scans only the ROSTER (the lead is never scanned),
ignores connectivity, and fires on exact equality with winning_score: when
the scan finds a roster participant at the winning score (after the
round-winner increment), the finish transition is scheduled with the FIRST
such roster participant, otherwise the next turn is scheduled. -/
theorem C5_winning_check (setup : SetupCard) (l : Lobby) (p : PlayerId)
    (card : PunchlineCard) (l' : Lobby) (sched : Sched)
    (hok : Judgement.pick_turn_winner setup l p card = PickResult.ok l' sched)
    (hne : l.is_game_endless = false) :
    (Judgement.pick_turn_winner setup l p card).schedOf = some sched ∧
    l'.settings = l.settings ∧
    l'.players = l.players ∧
    (match l'.players.find?
        (fun q => (getPD l'.store q).score == l'.settings.winning_score) with
     | some w => sched = Sched.finishGame w
     | none => sched = Sched.nextTurn) := by
  have hres := hok
  unfold Judgement.pick_turn_winner at hok
  split at hok
  · exact absurd hok (by simp)
  · split at hok
    · exact absurd hok (by simp)
    · split at hok
      · exact absurd hok (by simp)
      · dsimp only at hok
        rw [hne] at hok
        simp only [Bool.false_eq_true, if_false] at hok
        split at hok
        · cases hok
          refine ⟨by rw [hres]; rfl, rfl, rfl, ?_⟩
          rename_i heq
          rw [heq]
        · cases hok
          refine ⟨by rw [hres]; rfl, rfl, rfl, ?_⟩
          rename_i heq
          rw [heq]

/-- C5 witness: in the same concrete setting but with the table entry
owned by roster player 2, the winning-score check fires and the finish
transition is scheduled with player 2 as winner. -/
theorem C5_witness :
    (Judgement.pick_turn_winner (sampleSetup 9) rosterEntryLobby 1
        (samplePunchline 50)).schedOf = some (Sched.finishGame 2) :=
  (C5_winning_check (sampleSetup 9) rosterEntryLobby 1 (samplePunchline 50)
    _ _ rfl rfl).1

/-- The per-player loop of `start_turn` leaves unlisted players' data
unchanged. -/
theorem start_turn_deal_frame
    (shuffleP : List PunchlineCard → List PunchlineCard) (p : PlayerId)
    (ps : List PlayerId) (l l' : Lobby) (hnp : p ∉ ps)
    (h : Lobby.start_turn_deal shuffleP ps l = .ok l') :
    getPD l'.store p = getPD l.store p := by
  induction ps generalizing l with
  | nil =>
    unfold Lobby.start_turn_deal at h
    cases h
    rfl
  | cons q rest ih =>
    rw [List.mem_cons, not_or] at hnp
    unfold Lobby.start_turn_deal at h
    dsimp only at h
    split at h
    · split at h
      · exact absurd h (by simp)
      · rw [ih _ hnp.2 h, getPD_setPD_ne _ _ _ _ hnp.1,
          getPD_setPD_ne _ _ _ _ hnp.1]
    · rw [ih _ hnp.2 h, getPD_setPD_ne _ _ _ _ hnp.1]

/-- The per-player loop of `start_turn` resets is_ready and adds exactly
one card to the hand of a listed player whose hand is not exactly
HAND_SIZE (and none to a hand of exactly HAND_SIZE). -/
theorem start_turn_deal_length
    (shuffleP : List PunchlineCard → List PunchlineCard) (p : PlayerId)
    (ps : List PlayerId) (l l' : Lobby) (hnodup : ps.Nodup) (hp : p ∈ ps)
    (hk : p ∈ l.store.map Prod.fst)
    (h : Lobby.start_turn_deal shuffleP ps l = .ok l') :
    (getPD l'.store p).hand.length
      = (if (getPD l.store p).hand.length = HAND_SIZE then HAND_SIZE
         else (getPD l.store p).hand.length + 1) ∧
    (getPD l'.store p).is_ready = false := by
  induction ps generalizing l with
  | nil => simp at hp
  | cons q rest ih =>
    have hnodup' := hnodup
    rw [List.nodup_cons] at hnodup'
    unfold Lobby.start_turn_deal at h
    dsimp only at h
    by_cases hpq : p = q
    · subst hpq
      have hself : getPD (setPD l.store p
            (fun d => { d with is_ready := false })) p
          = { getPD l.store p with is_ready := false } :=
        getPD_setPD_self _ _ _ hk
      rw [hself] at h
      split at h
      · rename_i hlen
        split at h
        · exact absurd h (by simp)
        · rename_i hscrut c deck' heq
          have hk2 : p ∈ (setPD l.store p
              (fun d => { d with is_ready := false })).map Prod.fst := by
            rw [setPD_keys]; exact hk
          have hself2 : getPD (setPD (setPD l.store p
                (fun d => { d with is_ready := false })) p
                (fun d => { d with hand := d.hand ++ [c] })) p
              = { getPD l.store p with is_ready := false, hand := (getPD l.store p).hand ++ [c] } := by
            rw [getPD_setPD_self _ _ _ hk2, hself]
          rw [start_turn_deal_frame shuffleP p rest _ _ hnodup'.1 h, hself2]
          simp only [ne_eq] at hlen
          rw [if_neg hlen]
          constructor
          · simp
          · rfl
      · rename_i hlen
        simp only [ne_eq, not_not] at hlen
        rw [start_turn_deal_frame shuffleP p rest _ _ hnodup'.1 h, hself]
        rw [if_pos hlen]
        exact ⟨hlen, rfl⟩
    · have hmem : p ∈ rest := by
        rcases List.mem_cons.mp hp with hx | hx
        · exact absurd hx hpq
        · exact hx
      have hne1 : getPD (setPD l.store q
            (fun d => { d with is_ready := false })) p = getPD l.store p :=
        getPD_setPD_ne _ _ _ _ hpq
      split at h
      · split at h
        · exact absurd h (by simp)
        · rename_i hscrut c deck' heq
          have hres := ih _ hnodup'.2 hmem
            (by rw [setPD_keys, setPD_keys]; exact hk) h
          rw [getPD_setPD_ne _ _ _ _ hpq, hne1] at hres
          exact hres
      · have hres := ih _ hnodup'.2 hmem (by rw [setPD_keys]; exact hk) h
        rw [hne1] at hres
        exact hres

/-- A successful lead rotation keeps the store and permutes the combined
player list (the old lead moves to the back of the roster and the new lead
is popped from the front). -/
theorem change_lead_ok (l s : Lobby) (h : l.change_lead = .ok s) :
    s.store = l.store ∧ List.Perm s.all_players l.all_players ∧
    s.setups = l.setups ∧ s.punchlines = l.punchlines := by
  unfold Lobby.change_lead at h
  dsimp only at h
  split at h
  · exact absurd h (by simp)
  · rename_i ps0 nl rest hld
    cases h
    refine ⟨rfl, ?_, rfl, rfl⟩
    show List.Perm (nl :: rest) l.all_players
    cases hlead : l.lead with
    | some ld =>
      rw [hlead] at hld
      simp only [Lobby.all_players, hlead]
      rw [← hld]
      exact List.perm_append_singleton ld l.players
    | none =>
      rw [hlead] at hld
      simp only [Lobby.all_players, hlead]
      rw [← hld]

/-- C4 (amended): `start_turn` does NOT top hands up to HAND_SIZE: it adds
exactly ONE card to each participant whose hand size differs from
HAND_SIZE (and none to a hand of exactly HAND_SIZE). Hence the hand size
after `start_turn` is HAND_SIZE only when the hand was already full or
short exactly one card. -/
theorem C4_start_turn_adds_one (shuffleS : List SetupCard → List SetupCard)
    (shuffleP : List PunchlineCard → List PunchlineCard) (l l' : Lobby)
    (p : PlayerId) (hnodup : l.all_players.Nodup) (hp : p ∈ l.all_players)
    (hk : p ∈ l.store.map Prod.fst)
    (hok : Lobby.start_turn shuffleS shuffleP l = .ok l') :
    (getPD ((Lobby.start_turn shuffleS shuffleP l).state).store p).hand.length
      = (if (getPD l.store p).hand.length = HAND_SIZE then HAND_SIZE
         else (getPD l.store p).hand.length + 1) := by
  rw [hok, Outcome.state_ok]
  unfold Lobby.start_turn at hok
  cases hcl : l.change_lead with
  | err e s =>
    rw [hcl] at hok
    exact absurd hok (by simp)
  | ok s =>
    obtain ⟨hstore, hperm, -, -⟩ := change_lead_ok l s hcl
    rw [hcl, Outcome.andThen_ok] at hok
    split at hok
    · exact absurd hok (by simp)
    · rename_i hscrut ns setups' heq
      have hp2 : p ∈ s.all_players := hperm.mem_iff.mpr hp
      have hn2 : s.all_players.Nodup := hperm.nodup_iff.mpr hnodup
      have hres := start_turn_deal_length shuffleP p _ _ _ hn2 hp2
        (by show p ∈ (s.store.map Prod.fst); rw [hstore]; exact hk) hok
      rw [← hstore]
      exact hres.1

/-- C4 counterexample: in a concrete Turns lobby, connected player 2 has
an eight-card hand; `start_turn` completes normally but player 2's hand
afterwards has nine cards, not HAND_SIZE. -/
theorem C4_counterexample :
    (Lobby.start_turn id id shortHandLobby).errorOf = none ∧
    (getPD shortHandLobby.store 2).is_connected = true ∧
    (getPD shortHandLobby.store 2).hand.length = 8 ∧
    (getPD ((Lobby.start_turn id id shortHandLobby).state).store 2).hand.length
        = 9 ∧
    (9 : Nat) ≠ HAND_SIZE := by
  exact ⟨rfl, by decide, by decide, by decide, by decide⟩

/-- C4 witness: the amended theorem applied to the concrete lobby with the
eight-card hand. -/
theorem C4_witness :
    (getPD ((Lobby.start_turn id id shortHandLobby).state).store 2).hand.length
      = (if (getPD shortHandLobby.store 2).hand.length = HAND_SIZE
         then HAND_SIZE else (getPD shortHandLobby.store 2).hand.length + 1) :=
  C4_start_turn_adds_one id id shortHandLobby _ 2 (by decide) (by decide)
    (by decide) rfl

/-- Entry counting distributes over table concatenation. -/
theorem entriesOf_append (t1 t2 : List CardOnTable) (q : PlayerId) :
    entriesOf (t1 ++ t2) q = entriesOf t1 q + entriesOf t2 q := by
  simp [entriesOf, List.filter_append]

/-- Entry count of a table extended with one new entry. -/
theorem entriesOf_append_single (t : List CardOnTable) (e : CardOnTable)
    (q : PlayerId) :
    entriesOf (t ++ [e]) q
      = entriesOf t q + (if e.player = q then 1 else 0) := by
  rw [entriesOf_append]
  by_cases h : e.player = q <;> simp [entriesOf, h]

/-- A table none of whose entries belong to a player has entry count zero
for that player. -/
theorem entriesOf_zero_of_all (t : List CardOnTable) (q : PlayerId)
    (h : ∀ x ∈ t, x.player ≠ q) : entriesOf t q = 0 := by
  rw [entriesOf, List.length_eq_zero, List.filter_eq_nil_iff]
  intro a ha
  simpa using h a ha

/-- A player with no table entry has entry count zero. -/
theorem entriesOf_zero_of_none (l : Lobby) (p : PlayerId)
    (h : l.card_on_table_of p = none) : entriesOf l.table p = 0 := by
  unfold Lobby.card_on_table_of at h
  apply entriesOf_zero_of_all
  intro x hx
  have := List.find?_eq_none.mp h x hx
  simpa using this

/-- Decomposition of a table around the first entry of a player: the
entries before it belong to other players, and list removal of that entry
deletes exactly it. -/
theorem card_on_table_decomp (l : Lobby) (p : PlayerId) (prev : CardOnTable)
    (h : l.card_on_table_of p = some prev) :
    prev.player = p ∧
    ∃ t1 t2, l.table = t1 ++ prev :: t2 ∧ (∀ x ∈ t1, x.player ≠ p) ∧
      l.table.erase prev = t1 ++ t2 := by
  unfold Lobby.card_on_table_of at h
  obtain ⟨hpred, t1, t2, hsplit, hbefore⟩ := List.find?_eq_some.mp h
  have hpp : prev.player = p := by simpa using hpred
  have ht1 : ∀ x ∈ t1, x.player ≠ p := by
    intro x hx
    have := hbefore x hx
    simpa using this
  have hnot : prev ∉ t1 := by
    intro hx
    exact ht1 prev hx hpp
  refine ⟨hpp, t1, t2, hsplit, ht1, ?_⟩
  rw [hsplit, List.erase_append_right _ hnot, List.erase_cons_head]

/-- A card sitting at the end of a hand survives the removal of one
occurrence of a card the hand holds. -/
theorem mem_erase_append_self (old : List PunchlineCard)
    (a card : PunchlineCard) (hc : card ∈ old) :
    a ∈ ((old ++ [a]).erase card) := by
  rw [← List.count_pos_iff]
  by_cases h : a = card
  · subst h
    rw [List.count_erase_self, List.count_append]
    have : 0 < old.count a := List.count_pos_iff.mpr hc
    simp only [List.count_singleton, beq_self_eq_true, if_true]
    omega
  · rw [List.count_erase_of_ne h, List.count_append]
    simp only [List.count_singleton, beq_self_eq_true, if_true]
    omega

/-- Entry count of a table extended on the left with one entry. -/
theorem entriesOf_cons (e : CardOnTable) (t : List CardOnTable)
    (q : PlayerId) :
    entriesOf (e :: t) q
      = (if e.player = q then 1 else 0) + entriesOf t q := by
  by_cases h : e.player = q
  · simp [entriesOf, List.filter_cons, h]
    omega
  · simp [entriesOf, List.filter_cons, h]

/-- C8: during Turns each participant keeps at most one table entry. If
the submission succeeds, the table holds exactly one entry for the
submitter — the freshly placed card — the previous entry (when present)
having been withdrawn with its card returned to the submitter's hand, and
the at-most-one-entry invariant is preserved for every participant. -/
theorem C8_single_entry (l : Lobby) (p : PlayerId) (card : PunchlineCard)
    (l' : Lobby) (hk : p ∈ l.store.map Prod.fst)
    (hinv : ∀ q : PlayerId, entriesOf l.table q ≤ 1)
    (hok : Turns.put_card_on_table l p card = .ok l') :
    (∀ q : PlayerId, entriesOf l'.table q ≤ 1) ∧
    entriesOf l'.table p = 1 ∧
    (⟨card, p, false⟩ : CardOnTable) ∈ l'.table ∧
    (∀ prev : CardOnTable, l.card_on_table_of p = some prev →
       prev.card ∈ (getPD l'.store p).hand) := by
  unfold Turns.put_card_on_table at hok
  split at hok
  · exact absurd hok (by simp)
  · rename_i hcard
    rw [not_not] at hcard
    cases hprev : l.card_on_table_of p with
    | none =>
      simp only [hprev] at hok
      cases hok
      dsimp only
      refine ⟨?_, ?_, ?_, ?_⟩
      · intro q
        rw [entriesOf_append_single]
        by_cases hq : q = p
        · subst hq
          rw [entriesOf_zero_of_none l q hprev]
          simp
        · have := hinv q
          have hne : ¬((⟨card, p, false⟩ : CardOnTable).player = q) := by
            simpa using fun hx => hq hx.symm
          rw [if_neg hne]
          omega
      · rw [entriesOf_append_single, entriesOf_zero_of_none l p hprev]
        simp
      · simp
      · intro prev hp'
        cases hp'
    | some prev =>
      simp only [hprev] at hok
      cases hok
      dsimp only
      obtain ⟨hpp, t1, t2, hsplit, ht1, herase⟩ :=
        card_on_table_decomp l p prev hprev
      have hz1 : entriesOf t1 p = 0 := entriesOf_zero_of_all t1 p ht1
      have ht2 : entriesOf t2 p = 0 := by
        have hh := hinv p
        rw [hsplit, entriesOf_append, entriesOf_cons, hz1, if_pos hpp] at hh
        omega
      refine ⟨?_, ?_, ?_, ?_⟩
      · intro q
        rw [entriesOf_append_single, herase, entriesOf_append]
        by_cases hq : q = p
        · subst hq
          rw [hz1, ht2]
          simp
        · have hh := hinv q
          rw [hsplit, entriesOf_append, entriesOf_cons] at hh
          have hne : ¬((⟨card, p, false⟩ : CardOnTable).player = q) := by
            simpa using fun hx => hq hx.symm
          rw [if_neg hne]
          omega
      · rw [entriesOf_append_single, herase, entriesOf_append, hz1, ht2]
        simp
      · simp
      · intro prev' hp'
        cases hp'
        have h1 : getPD (setPD l.store p
              (fun d => { d with hand := d.hand ++ [prev.card] })) p
            = { getPD l.store p with hand := (getPD l.store p).hand ++ [prev.card] } :=
          getPD_setPD_self _ _ _ hk
        have h2 : getPD (setPD (setPD l.store p
              (fun d => { d with hand := d.hand ++ [prev.card] })) p
              (fun d => { d with hand := d.hand.erase card, is_ready := true })) p
            = { getPD l.store p with hand := ((getPD l.store p).hand ++ [prev.card]).erase card, is_ready := true } := by
          rw [getPD_setPD_self _ _ _ (by rw [setPD_keys]; exact hk), h1]
        rw [h2]
        exact mem_erase_append_self (getPD l.store p).hand prev.card card hcard

/-- C8 witness: a concrete submission on an empty table yields exactly one
entry for the submitter. -/
theorem C8_witness :
    entriesOf (Turns.put_card_on_table baseLobby 2
        (samplePunchline 2)).state.table 2 = 1 := by
  have h := C8_single_entry baseLobby 2 (samplePunchline 2) _ (by decide)
    (by intro q; simp [entriesOf, baseLobby]) rfl
  rw [show (Turns.put_card_on_table baseLobby 2 (samplePunchline 2)).state
      = (Turns.put_card_on_table baseLobby 2 (samplePunchline 2)).state from rfl]
  exact h.2.1

/-- A player has no table entry exactly when no entry names them. -/
theorem card_on_table_of_eq_none (l : Lobby) (p : PlayerId) :
    l.card_on_table_of p = none ↔ ∀ x ∈ l.table, x.player ≠ p := by
  unfold Lobby.card_on_table_of
  rw [List.find?_eq_none]
  constructor
  · intro h x hx
    simpa using h x hx
  · intro h x hx
    simpa using h x hx

/-- A submission by one player neither creates nor removes table entries of
a DIFFERENT player, and leaves that player's data unchanged. -/
theorem put_card_other (l : Lobby) (q : PlayerId) (c : PunchlineCard)
    (p : PlayerId) (hne : q ≠ p) (l' : Lobby)
    (hok : Turns.put_card_on_table l q c = .ok l')
    (hsafe : ∀ x ∈ l.table, x.player ≠ p) :
    (∀ x ∈ l'.table, x.player ≠ p) ∧ getPD l'.store p = getPD l.store p := by
  unfold Turns.put_card_on_table at hok
  split at hok
  · exact absurd hok (by simp)
  · cases hprevq : l.card_on_table_of q with
    | none =>
      simp only [hprevq] at hok
      cases hok
      dsimp only
      constructor
      · intro x hx
        rcases List.mem_append.mp hx with hx | hx
        · exact hsafe x hx
        · rw [List.mem_singleton] at hx
          subst hx
          simpa using hne
      · exact getPD_setPD_ne _ _ _ _ (Ne.symm hne)
    | some prevq =>
      simp only [hprevq] at hok
      cases hok
      dsimp only
      constructor
      · intro x hx
        rcases List.mem_append.mp hx with hx | hx
        · exact hsafe x (List.mem_of_mem_erase hx)
        · rw [List.mem_singleton] at hx
          subst hx
          simpa using hne
      · rw [getPD_setPD_ne _ _ _ _ (Ne.symm hne),
          getPD_setPD_ne _ _ _ _ (Ne.symm hne)]

/-- The auto-submission loop of `end_turn` never creates a table entry for
a disconnected player and never changes their connection flag. -/
theorem auto_submit_no_entry (choose : List PunchlineCard → PunchlineCard)
    (p : PlayerId) (ps : List PlayerId) (l l' : Lobby)
    (hdis : (getPD l.store p).is_connected = false)
    (hsafe : ∀ x ∈ l.table, x.player ≠ p)
    (h : Turns.auto_submit choose ps l = .ok l') :
    (∀ x ∈ l'.table, x.player ≠ p) ∧
    (getPD l'.store p).is_connected = false := by
  induction ps generalizing l with
  | nil =>
    unfold Turns.auto_submit at h
    cases h
    exact ⟨hsafe, hdis⟩
  | cons q rest ih =>
    unfold Turns.auto_submit at h
    split at h
    · rename_i hcond
      have hqp : q ≠ p := by
        intro hx
        subst hx
        rw [hdis] at hcond
        exact absurd hcond.1 (by simp)
      split at h
      · exact absurd h (by simp)
      · cases hput : Turns.put_card_on_table l q
            (choose (getPD l.store q).hand) with
        | err e s =>
          rw [hput, Outcome.andThen_err] at h
          exact absurd h (by simp)
        | ok l1 =>
          rw [hput, Outcome.andThen_ok] at h
          obtain ⟨hs1, hd1⟩ := put_card_other l q _ p hqp l1 hput hsafe
          exact ih l1 (by rw [hd1]; exact hdis) hs1 h
    · exact ih l hdis hsafe h

/-- C3 (amended): round resolution auto-submits only for CONNECTED
not-ready roster participants; a participant who disconnected without
submitting is skipped, so when `end_turn` completes and the phase moves to
Judgement their table entry is ABSENT, not present. -/
theorem C3_disconnected_not_auto_submitted
    (choose : List PunchlineCard → PunchlineCard)
    (shuffleT : List CardOnTable → List CardOnTable) (setup : SetupCard)
    (l l' : Lobby) (p : PlayerId)
    (hdis : (getPD l.store p).is_connected = false)
    (hnoentry : l.card_on_table_of p = none)
    (hperm : ∀ t : List CardOnTable, List.Perm (shuffleT t) t)
    (hok : Turns.end_turn choose shuffleT setup l = .ok l') :
    l'.card_on_table_of p = none := by
  unfold Turns.end_turn at hok
  cases hsub : Turns.auto_submit choose l.players l with
  | err e s =>
    rw [hsub, Outcome.andThen_err] at hok
    exact absurd hok (by simp)
  | ok l1 =>
    rw [hsub, Outcome.andThen_ok] at hok
    have hstart : ∀ x ∈ l.table, x.player ≠ p :=
      (card_on_table_of_eq_none l p).mp hnoentry
    obtain ⟨h1, -⟩ :=
      auto_submit_no_entry choose p l.players l l1 hdis hstart hsub
    dsimp only at hok
    split at hok
    · cases hok
      rw [card_on_table_of_eq_none]
      intro x hx
      exact h1 x ((hperm l1.table).mem_iff.mp hx)
    · exact absurd hok (by simp)

/-- C3 counterexample: in a concrete Turns lobby, player 2 is disconnected,
not ready and holds a card; `end_turn` completes and transitions to
Judgement, yet player 2 has NO table entry — no card was auto-submitted on
their behalf. -/
theorem C3_counterexample :
    (Turns.end_turn (fun h => h.headD (samplePunchline 0)) id (sampleSetup 9)
        baseLobby).errorOf = none ∧
    (Turns.end_turn (fun h => h.headD (samplePunchline 0)) id (sampleSetup 9)
        baseLobby).state.phase = Phase.Judgement (sampleSetup 9) none ∧
    (getPD baseLobby.store 2).is_connected = false ∧
    (getPD baseLobby.store 2).is_ready = false ∧
    (getPD baseLobby.store 2).hand ≠ [] ∧
    Lobby.card_on_table_of (Turns.end_turn
        (fun h => h.headD (samplePunchline 0)) id (sampleSetup 9)
        baseLobby).state 2 = none := by
  exact ⟨rfl, rfl, by decide, by decide, by decide, rfl⟩

/-- C3 witness: the amended theorem applied to the concrete lobby. -/
theorem C3_witness :
    Lobby.card_on_table_of (Turns.end_turn
        (fun h => h.headD (samplePunchline 0)) id (sampleSetup 9)
        baseLobby).state 2 = none :=
  C3_disconnected_not_auto_submitted (fun h => h.headD (samplePunchline 0))
    id (sampleSetup 9) baseLobby _ 2 (by decide) rfl
    (fun t => List.Perm.refl t) rfl

/-- The connect top-up loop can only fail with IndexError (deck
exhaustion). -/
theorem top_up_hand_error (shuffleP : List PunchlineCard → List PunchlineCard)
    (p : PlayerId) (fuel : Nat) (l : Lobby) (e : GameError)
    (h : (Lobby.top_up_hand shuffleP fuel l p).errorOf = some e) :
    e = GameError.IndexError := by
  induction fuel generalizing l with
  | zero => simp [Lobby.top_up_hand] at h
  | succ n ih =>
    unfold Lobby.top_up_hand at h
    split at h
    · split at h
      · simpa using h.symm
      · exact ih _ h
    · simp at h

/-- The connect top-up loop never changes the roster or the grave. -/
theorem top_up_hand_roster (shuffleP : List PunchlineCard → List PunchlineCard)
    (p : PlayerId) (fuel : Nat) (l : Lobby) :
    (Lobby.top_up_hand shuffleP fuel l p).state.players = l.players ∧
    (Lobby.top_up_hand shuffleP fuel l p).state.grave = l.grave := by
  induction fuel generalizing l with
  | zero => exact ⟨rfl, rfl⟩
  | succ n ih =>
    unfold Lobby.top_up_hand
    split
    · split
      · exact ⟨rfl, rfl⟩
      · exact ih _
    · exact ⟨rfl, rfl⟩

/-- A successful run of the connect top-up loop on a hand not exceeding
HAND_SIZE (with enough fuel) ends with the hand at exactly HAND_SIZE. -/
theorem top_up_hand_length (shuffleP : List PunchlineCard → List PunchlineCard)
    (p : PlayerId) (fuel : Nat) (l l' : Lobby)
    (hk : p ∈ l.store.map Prod.fst)
    (hle : (getPD l.store p).hand.length ≤ HAND_SIZE)
    (hfuel : HAND_SIZE ≤ (getPD l.store p).hand.length + fuel)
    (h : Lobby.top_up_hand shuffleP fuel l p = .ok l') :
    (getPD l'.store p).hand.length = HAND_SIZE := by
  induction fuel generalizing l with
  | zero =>
    unfold Lobby.top_up_hand at h
    cases h
    omega
  | succ n ih =>
    unfold Lobby.top_up_hand at h
    split at h
    · rename_i hlt
      split at h
      · exact absurd h (by simp)
      · rename_i hscrut c deck' heq
        have hself : getPD (setPD l.store p
              (fun d => { d with hand := d.hand ++ [c] })) p
            = { getPD l.store p with hand := (getPD l.store p).hand ++ [c] } :=
          getPD_setPD_self _ _ _ hk
        exact ih _ (by simp only [setPD_keys]; exact hk)
          (by simp only [hself, List.length_append, List.length_singleton]
              omega)
          (by simp only [hself, List.length_append, List.length_singleton]
              omega) h
    · rename_i hge
      cases h
      omega

/-- C9: `connect` fails with UnknownPlayerError exactly for a player who is
neither active (lead or roster) nor in the grave (and then it changes
nothing); a grave player is moved out of the grave and appended to the
roster; and outside the Gathering phase a successful connect ends with the
player's hand topped up to exactly HAND_SIZE. -/
theorem C9_connect (shuffleP : List PunchlineCard → List PunchlineCard)
    (l : Lobby) (p : PlayerId) :
    (p ∉ l.all_players → p ∉ l.grave →
       Lobby.connect shuffleP l p = .err .UnknownPlayerError l) ∧
    ((Lobby.connect shuffleP l p).errorOf = some .UnknownPlayerError →
       p ∉ l.all_players ∧ p ∉ l.grave) ∧
    (p ∉ l.all_players → p ∈ l.grave →
       (Lobby.connect shuffleP l p).state.grave = l.grave.erase p ∧
       (Lobby.connect shuffleP l p).state.players = l.players ++ [p]) ∧
    (∀ l' : Lobby, l.phase ≠ Phase.Gathering →
       p ∈ l.store.map Prod.fst →
       (getPD l.store p).hand.length ≤ HAND_SIZE →
       Lobby.connect shuffleP l p = .ok l' →
       (getPD l'.store p).hand.length = HAND_SIZE) := by
  refine ⟨?_, ?_, ?_, ?_⟩
  · intro h1 h2
    unfold Lobby.connect
    dsimp only
    rw [if_neg h1, if_pos h2, Outcome.andThen_err]
  · intro herr
    by_cases h1 : p ∈ l.all_players
    · exfalso
      revert herr
      unfold Lobby.connect
      dsimp only
      rw [if_pos h1, Outcome.andThen_ok]
      split
      · intro herr
        have := top_up_hand_error shuffleP p HAND_SIZE l _ herr
        simp at this
      · intro herr
        simp at herr
    · by_cases h2 : p ∈ l.grave
      · exfalso
        revert herr
        unfold Lobby.connect
        dsimp only
        rw [if_neg h1, if_neg (not_not_intro h2), Outcome.andThen_ok]
        split
        · intro herr
          have := top_up_hand_error shuffleP p HAND_SIZE _ _ herr
          simp at this
        · intro herr
          simp at herr
      · exact ⟨h1, h2⟩
  · intro h1 h2
    unfold Lobby.connect
    dsimp only
    rw [if_neg h1, if_neg (not_not_intro h2), Outcome.andThen_ok]
    split
    · exact ⟨(top_up_hand_roster shuffleP p HAND_SIZE _).2,
        (top_up_hand_roster shuffleP p HAND_SIZE _).1⟩
    · exact ⟨rfl, rfl⟩
  · intro l' hphase hk hlen hok
    by_cases h1 : p ∈ l.all_players
    · revert hok
      unfold Lobby.connect
      dsimp only
      rw [if_pos h1, Outcome.andThen_ok, if_pos hphase]
      intro hok
      exact top_up_hand_length shuffleP p HAND_SIZE l l' hk hlen (by omega) hok
    · by_cases h2 : p ∈ l.grave
      · revert hok
        unfold Lobby.connect
        dsimp only
        rw [if_neg h1, if_neg (not_not_intro h2), Outcome.andThen_ok,
          if_pos hphase]
        intro hok
        exact top_up_hand_length shuffleP p HAND_SIZE
          { l with grave := l.grave.erase p, players := l.players ++ [p] } l'
          hk hlen (by omega) hok
      · revert hok
        unfold Lobby.connect
        dsimp only
        rw [if_neg h1, if_pos h2, Outcome.andThen_err]
        intro hok
        exact absurd hok (by simp)

/-- C9 witness: player 3, sitting in the grave with a one-card hand,
reconnects to the concrete Turns lobby: they are appended to the roster
and their hand is topped up to exactly HAND_SIZE. -/
theorem C9_witness :
    (getPD (Lobby.connect id graveLobby 3).state.store 3).hand.length
        = HAND_SIZE ∧
    (Lobby.connect id graveLobby 3).state.players
        = graveLobby.players ++ [3] := by
  have h := C9_connect id graveLobby 3
  exact ⟨h.2.2.2 _ (by decide) (by decide) (by decide) rfl,
    (h.2.2.1 (by decide) (by decide)).2⟩
